import Mathlib

/-!
# Verification of the Specification-pattern core (`src/SpecificationPattern.py`)

We shallowly embed the runtime behaviour of the `Specification` class
hierarchy.  One crucial fact about the source governs the embedding:
`SpecificationMeta.__new__` attaches the reset-and-log decorator only when
`hasattr(_class, "log")` holds, but the hierarchy defines `_log`, never `log`,
so the decorator is never attached.  Consequently, at runtime:

* `is_satisfied_by` of a leaf returns the bare predicate result and never
  touches `_last_errors`;
* `_last_errors` is never reset at the start of a call;
* `_log_failure` runs only where it is called explicitly, namely inside
  `_NotSpecification.is_satisfied_by`.

The embedding below reflects exactly this behaviour.  Candidates are
specialised to `Int` (the example leaves compare integers); leaves carry an
arbitrary predicate, so leaf behaviour stays fully general.
-/

/-- A Python `dict[str, str]` as an insertion-ordered association list. -/
abbrev Errors : Type := List (String × String)

/-- Python `d[k] = v`: overwrite in place when the key is present (keeping its
position), otherwise append at the end. -/
def dict_insert (d : Errors) (k v : String) : Errors :=
  if d.any (fun p => p.1 = k) then
    d.map (fun p => if p.1 = k then (k, v) else p)
  else d ++ [(k, v)]

/-- Python `d.update(e)`: insert the bindings of `e` in order. -/
def dict_update (d : Errors) (e : Errors) : Errors :=
  e.foldl (fun acc p => dict_insert acc p.1 p.2) d

/-- First-match lookup in an association list. -/
def dict_lookup : Errors → String → Option String
  | [], _ => none
  | p :: t, k => if p.1 = k then some p.2 else dict_lookup t k

/-- The keys of an error report, in order. -/
def dict_keys (e : Errors) : List String := e.map Prod.fst

/-- A specification tree.  Each node carries its own mutable `_last_errors`
dictionary (the field `e` of every constructor).

* `leaf` embeds a concrete leaf class: its class name, its `description`,
  its `_include_candidate_in_error` flag and its pure predicate.
* `sand` embeds `_AndSpecification`, `sor` embeds `_OrSpecification`
  (children ordered left, right as in `self._specs`).
* `snot` embeds `_NotSpecification` with its single child. -/
inductive Spec where
  | leaf (name descr : String) (includeCand : Bool) (pred : Int → Bool) (e : Errors)
  | sand (e : Errors) (left right : Spec)
  | sor (e : Errors) (left right : Spec)
  | snot (e : Errors) (inner : Spec)

/-- The node's `_last_errors` field. -/
def Spec.last_errors : Spec → Errors
  | .leaf _ _ _ _ e => e
  | .sand e _ _ => e
  | .sor e _ _ => e
  | .snot e _ => e

/-- The `errors` property: returns a copy of `_last_errors` (a copy and the
value coincide in a pure embedding). -/
def Spec.errors (s : Spec) : Errors := s.last_errors

/-- The `description` attribute, as fixed at construction time:
leaves synthesise theirs, `_AndSpecification`/`_OrSpecification` keep the
class default, `_NotSpecification` wraps the child's via `"NOT({0})"`. -/
def Spec.descr : Spec → String
  | .leaf _ d _ _ _ => d
  | .sand _ _ _ => "No description provided."
  | .sor _ _ _ => "No description provided."
  | .snot _ t => "NOT(" ++ t.descr ++ ")"

/-- `is_satisfied_by` exactly as it runs in the source (undecorated, see the
header comment): returns the boolean result together with the updated tree.

* a leaf returns its predicate value and changes no state;
* `_AndSpecification`: evaluate left; on failure merge `left.errors` into the
  own dictionary and return `False` without evaluating right; otherwise
  evaluate right and on failure merge `right.errors`;
* `_OrSpecification`: evaluate left, short-circuit on success; otherwise
  evaluate right, short-circuit on success; if both fail, merge both
  children's errors;
* `_NotSpecification`: negate the child's result; when that negation is
  `False` (child succeeded), record
  `"Expected to NOT satisfy: <child description> (got: <candidate>)"` under
  the key `"_NotSpecification"` (its `class_name`).

No constructor resets its dictionary: the reset decorator is never attached
in the source. -/
def is_satisfied_by : Spec → Int → Bool × Spec
  | .leaf n d i p e, c => (p c, .leaf n d i p e)
  | .sand e l r, c =>
      match is_satisfied_by l c with
      | (false, l₁) => (false, .sand (dict_update e l₁.errors) l₁ r)
      | (true, l₁) =>
          match is_satisfied_by r c with
          | (false, r₁) => (false, .sand (dict_update e r₁.errors) l₁ r₁)
          | (true, r₁) => (true, .sand e l₁ r₁)
  | .sor e l r, c =>
      match is_satisfied_by l c with
      | (true, l₁) => (true, .sor e l₁ r)
      | (false, l₁) =>
          match is_satisfied_by r c with
          | (true, r₁) => (true, .sor e l₁ r₁)
          | (false, r₁) =>
              (false, .sor (dict_update (dict_update e l₁.errors) r₁.errors) l₁ r₁)
  | .snot e t, c =>
      match is_satisfied_by t c with
      | (true, t₁) =>
          (false, .snot (dict_insert e "_NotSpecification"
            ("Expected to NOT satisfy: " ++ t.descr ++ " (got: " ++ toString c ++ ")")) t₁)
      | (false, t₁) => (true, .snot e t₁)

/-- The boolean result of evaluation, as a pure function of the candidate and
the tree's configuration (`is_satisfied_by` never branches on error state;
`eval_fst` below proves the agreement). -/
def satisfies : Spec → Int → Bool
  | .leaf _ _ _ p _, c => p c
  | .sand _ l r, c => satisfies l c && satisfies r c
  | .sor _ l r, c => satisfies l c || satisfies r c
  | .snot _ t, c => ! satisfies t c

/-- Which nodes' `is_satisfied_by` methods run during one evaluation, as
paths from the root (`false` = left child or the NOT child, `true` = right
child).  Mirrors the branching of `is_satisfied_by`: a failing left child of
an AND, or a succeeding left child of an OR, stops the recursion before the
right child. -/
def eval_paths : Spec → Int → List (List Bool)
  | .leaf _ _ _ _ _, _ => [[]]
  | .sand _ l r, c =>
      if satisfies l c then
        [] :: ((eval_paths l c).map (List.cons false) ++ (eval_paths r c).map (List.cons true))
      else
        [] :: (eval_paths l c).map (List.cons false)
  | .sor _ l r, c =>
      if satisfies l c then
        [] :: (eval_paths l c).map (List.cons false)
      else
        [] :: ((eval_paths l c).map (List.cons false) ++ (eval_paths r c).map (List.cons true))
  | .snot _ t, c => [] :: (eval_paths t c).map (List.cons false)

/-- `"\n".join(f"{k}: {v}" for k, v in self._last_errors.items())`. -/
def format_errors (e : Errors) : String :=
  String.intercalate "\n" (e.map (fun p => p.1 ++ ": " ++ p.2))

/-- `explain_failure`: evaluate; empty string on success, otherwise the joined
error lines of the (freshly updated) own dictionary. -/
def explain_failure (s : Spec) (c : Int) : String × Spec :=
  match is_satisfied_by s c with
  | (true, s₁) => ("", s₁)
  | (false, s₁) => (format_errors s₁.last_errors, s₁)

/-- `validate_or_raise`: evaluate; on failure raise (modelled as `some msg`)
with the message produced by a second call to `explain_failure`; on success
return normally (`none`). -/
def validate_or_raise (s : Spec) (c : Int) : Option String × Spec :=
  match is_satisfied_by s c with
  | (true, s₁) => (none, s₁)
  | (false, s₁) =>
      match explain_failure s₁ c with
      | (msg, s₂) => (some msg, s₂)

/-- `__and__`: a fresh `_AndSpecification` with an empty error dictionary. -/
def Spec.andS (a b : Spec) : Spec := .sand [] a b

/-- `__or__`: a fresh `_OrSpecification` with an empty error dictionary. -/
def Spec.orS (a b : Spec) : Spec := .sor [] a b

/-- `all_of`: `ValueError` on the empty list, otherwise the left fold of
`result &= spec` over the tail. -/
def all_of : List Spec → Except String Spec
  | [] => .error "all_of requires at least one specification"
  | s :: rest => .ok (rest.foldl Spec.andS s)

/-- `any_of`: `ValueError` on the empty list, otherwise the left fold of
`result |= spec` over the tail. -/
def any_of : List Spec → Except String Spec
  | [] => .error "any_of requires at least one specification"
  | s :: rest => .ok (rest.foldl Spec.orS s)

/-- The `GreaterThan(threshold)` leaf: predicate `candidate > threshold`,
description `f"Value greater than {threshold}"`. -/
def GreaterThan (t : Int) : Spec :=
  .leaf "GreaterThan" ("Value greater than " ++ toString t) true
    (fun c => decide (t < c)) []

/-- Erase all error state, keeping the configuration. -/
def strip : Spec → Spec
  | .leaf n d i p _ => .leaf n d i p []
  | .sand _ l r => .sand [] (strip l) (strip r)
  | .sor _ l r => .sor [] (strip l) (strip r)
  | .snot _ t => .snot [] (strip t)

/-- All error dictionaries in the tree have pairwise distinct keys. -/
def err_nodup : Spec → Prop
  | .leaf _ _ _ _ e => (dict_keys e).Nodup
  | .sand e l r => (dict_keys e).Nodup ∧ err_nodup l ∧ err_nodup r
  | .sor e l r => (dict_keys e).Nodup ∧ err_nodup l ∧ err_nodup r
  | .snot e t => (dict_keys e).Nodup ∧ err_nodup t

/-- The error state after `n` further evaluations of the same candidate. -/
def eval_iter (c : Int) : Nat → Spec → Spec
  | 0, s => s
  | n + 1, s => (is_satisfied_by (eval_iter c n s) c).2

/-- The child a composite delegates to first (`_specs[0]`, or the NOT child);
a leaf is returned unchanged. -/
def Spec.left_child : Spec → Spec
  | .leaf n d i p e => .leaf n d i p e
  | .sand _ l _ => l
  | .sor _ l _ => l
  | .snot _ t => t

/-- `~GreaterThan(10)` as built by `__invert__` (fresh error dictionary). -/
def notGT10 : Spec := .snot [] (GreaterThan 10)

/-- `~GreaterThan(5)` as built by `__invert__`. -/
def notGT5 : Spec := .snot [] (GreaterThan 5)

/-- The demo composite `GreaterThan(5) & ~GreaterThan(10)`. -/
def between_5_and_10 : Spec := (GreaterThan 5).andS notGT10

/-- The state of `between_5_and_10` after evaluating candidate 12 (which
fails and records the NOT child's error). -/
def between_after_12 : Spec := (is_satisfied_by between_5_and_10 12).2

/-- `~GreaterThan(5) | GreaterThan(5)`: satisfied by every candidate, but
evaluating it at a candidate above 5 makes the left child record an error. -/
def or_not5_5 : Spec := notGT5.orS (GreaterThan 5)

/-! ## Dictionary lemmas -/

theorem dict_keys_nil : dict_keys [] = [] := rfl

theorem dict_keys_cons (p : String × String) (t : Errors) :
    dict_keys (p :: t) = p.1 :: dict_keys t := rfl

theorem dict_lookup_eq_none_iff (e : Errors) (k : String) :
    dict_lookup e k = none ↔ k ∉ dict_keys e := by
  induction e with
  | nil => simp [dict_lookup, dict_keys]
  | cons p t ih =>
    by_cases h : p.1 = k
    · simp [dict_lookup, h, dict_keys_cons]
    · simp only [dict_lookup, if_neg h, dict_keys_cons, List.mem_cons, ih]
      constructor
      · intro hn hm
        rcases hm with h1 | h2
        · exact h h1.symm
        · exact hn h2
      · intro hn
        exact fun h2 => hn (Or.inr h2)

theorem mem_keys_of_lookup {e : Errors} {k v : String}
    (h : dict_lookup e k = some v) : k ∈ dict_keys e := by
  by_contra hn
  rw [← dict_lookup_eq_none_iff] at hn
  rw [h] at hn
  exact Option.noConfusion hn

theorem any_key_iff (d : Errors) (k : String) :
    (d.any (fun p => p.1 = k)) = true ↔ k ∈ dict_keys d := by
  simp [List.any_eq_true, dict_keys, List.mem_map]

theorem keys_map_fix (e : Errors) (k v : String) :
    dict_keys (e.map (fun p => if p.1 = k then (k, v) else p)) = dict_keys e := by
  induction e with
  | nil => rfl
  | cons p t ih =>
    by_cases hp : p.1 = k
    · simp [List.map_cons, dict_keys_cons, ih, hp]
    · simp [List.map_cons, if_neg hp, dict_keys_cons, ih]

theorem keys_insert_mem {e : Errors} {k : String} (v : String)
    (h : k ∈ dict_keys e) : dict_keys (dict_insert e k v) = dict_keys e := by
  rw [dict_insert, if_pos ((any_key_iff e k).2 h)]
  exact keys_map_fix e k v

theorem keys_insert_not_mem {e : Errors} {k : String} (v : String)
    (h : k ∉ dict_keys e) : dict_keys (dict_insert e k v) = dict_keys e ++ [k] := by
  have : (e.any (fun p => p.1 = k)) ≠ true := fun ha => h ((any_key_iff e k).1 ha)
  rw [dict_insert, if_neg this]
  simp [dict_keys]

theorem mem_keys_insert_iff {e : Errors} {k k' v : String} :
    k' ∈ dict_keys (dict_insert e k v) ↔ k' ∈ dict_keys e ∨ k' = k := by
  by_cases h : k ∈ dict_keys e
  · rw [keys_insert_mem v h]
    constructor
    · exact Or.inl
    · rintro (h1 | h1)
      · exact h1
      · exact h1 ▸ h
  · rw [keys_insert_not_mem v h]
    simp

theorem mem_keys_insert_self (e : Errors) (k v : String) :
    k ∈ dict_keys (dict_insert e k v) :=
  mem_keys_insert_iff.2 (Or.inr rfl)

theorem nodup_keys_insert {e : Errors} (k v : String)
    (h : (dict_keys e).Nodup) : (dict_keys (dict_insert e k v)).Nodup := by
  by_cases hm : k ∈ dict_keys e
  · rw [keys_insert_mem v hm]; exact h
  · rw [keys_insert_not_mem v hm]
    simp [List.nodup_append, h, hm]

theorem lookup_map_fix {e : Errors} {k : String} (v : String)
    (h : k ∈ dict_keys e) :
    dict_lookup (e.map (fun p => if p.1 = k then (k, v) else p)) k = some v := by
  induction e with
  | nil => simp [dict_keys] at h
  | cons p t ih =>
    by_cases hp : p.1 = k
    · simp [dict_lookup, hp]
    · rw [dict_keys_cons, List.mem_cons] at h
      rcases h with h1 | h2
      · exact absurd h1.symm hp
      · simp only [List.map_cons, if_neg hp, dict_lookup, if_neg hp]
        exact ih h2

theorem lookup_map_ne {k k' : String} (hne : k' ≠ k) (e : Errors) (v : String) :
    dict_lookup (e.map (fun p => if p.1 = k then (k, v) else p)) k' = dict_lookup e k' := by
  induction e with
  | nil => rfl
  | cons p t ih =>
    by_cases hp : p.1 = k
    · simp only [List.map_cons, if_pos hp, dict_lookup]
      rw [if_neg (fun h : k = k' => hne h.symm),
        if_neg (by rw [hp]; exact (fun h : k = k' => hne h.symm))]
      exact ih
    · simp only [List.map_cons, if_neg hp, dict_lookup]
      by_cases hp2 : p.1 = k'
      · rw [if_pos hp2, if_pos hp2]
      · rw [if_neg hp2, if_neg hp2]
        exact ih

theorem lookup_append_self {e : Errors} {k : String} (v : String)
    (h : k ∉ dict_keys e) : dict_lookup (e ++ [(k, v)]) k = some v := by
  induction e with
  | nil => simp [dict_lookup]
  | cons p t ih =>
    rw [dict_keys_cons, List.mem_cons] at h
    push_neg at h
    simp only [List.cons_append, dict_lookup]
    rw [if_neg (fun hq : p.1 = k => h.1 hq.symm)]
    exact ih h.2

theorem lookup_append_ne {k k' : String} (hne : k' ≠ k) (e : Errors) (v : String) :
    dict_lookup (e ++ [(k, v)]) k' = dict_lookup e k' := by
  induction e with
  | nil => simp [dict_lookup, if_neg (fun h : k = k' => hne h.symm)]
  | cons p t ih =>
    simp only [List.cons_append, dict_lookup]
    by_cases hp : p.1 = k'
    · rw [if_pos hp, if_pos hp]
    · rw [if_neg hp, if_neg hp]
      exact ih

theorem lookup_insert_self (e : Errors) (k v : String) :
    dict_lookup (dict_insert e k v) k = some v := by
  by_cases hm : k ∈ dict_keys e
  · rw [dict_insert, if_pos ((any_key_iff e k).2 hm)]
    exact lookup_map_fix v hm
  · rw [dict_insert, if_neg (fun ha => hm ((any_key_iff e k).1 ha))]
    exact lookup_append_self v hm

theorem lookup_insert_ne {k k' : String} (e : Errors) (v : String) (hne : k' ≠ k) :
    dict_lookup (dict_insert e k v) k' = dict_lookup e k' := by
  rw [dict_insert]
  by_cases ha : (e.any (fun p => p.1 = k)) = true
  · rw [if_pos ha]
    exact lookup_map_ne hne e v
  · rw [if_neg ha]
    exact lookup_append_ne hne e v

theorem dict_update_nil (e : Errors) : dict_update e [] = e := rfl

theorem dict_update_cons (e : Errors) (p : String × String) (d : Errors) :
    dict_update e (p :: d) = dict_update (dict_insert e p.1 p.2) d := rfl

theorem lookup_update_of_none {d : Errors} {k : String}
    (h : dict_lookup d k = none) (e : Errors) :
    dict_lookup (dict_update e d) k = dict_lookup e k := by
  induction d generalizing e with
  | nil => rfl
  | cons p t ih =>
    rw [dict_update_cons]
    rw [dict_lookup] at h
    by_cases hp : p.1 = k
    · rw [if_pos hp] at h
      exact Option.noConfusion h
    · rw [if_neg hp] at h
      rw [ih h, lookup_insert_ne e p.2 (fun hq => hp hq.symm)]

theorem lookup_update_of_some {d : Errors} {k v : String}
    (hd : (dict_keys d).Nodup) (h : dict_lookup d k = some v) (e : Errors) :
    dict_lookup (dict_update e d) k = some v := by
  induction d generalizing e with
  | nil => exact Option.noConfusion h
  | cons p t ih =>
    rw [dict_update_cons]
    rw [dict_lookup] at h
    rw [dict_keys_cons, List.nodup_cons] at hd
    by_cases hp : p.1 = k
    · rw [if_pos hp] at h
      have hv : p.2 = v := Option.some.inj h
      have hnone : dict_lookup t k = none := by
        rw [dict_lookup_eq_none_iff]
        rw [← hp]
        exact hd.1
      rw [lookup_update_of_none hnone]
      subst hp
      subst hv
      exact lookup_insert_self e p.1 p.2
    · rw [if_neg hp] at h
      exact ih hd.2 h _

theorem mem_keys_update_left {k : String} {e : Errors}
    (h : k ∈ dict_keys e) (d : Errors) : k ∈ dict_keys (dict_update e d) := by
  induction d generalizing e with
  | nil => exact h
  | cons p t ih =>
    rw [dict_update_cons]
    exact ih (mem_keys_insert_iff.2 (Or.inl h))

theorem mem_keys_update_right {k : String} {d : Errors}
    (h : k ∈ dict_keys d) (e : Errors) : k ∈ dict_keys (dict_update e d) := by
  induction d generalizing e with
  | nil => simp [dict_keys] at h
  | cons p t ih =>
    rw [dict_update_cons]
    rw [dict_keys_cons, List.mem_cons] at h
    rcases h with h1 | h2
    · exact mem_keys_update_left (h1 ▸ mem_keys_insert_self e p.1 p.2) t
    · exact ih h2 _

theorem keys_update_subset {d e : Errors}
    (h : ∀ k ∈ dict_keys d, k ∈ dict_keys e) :
    dict_keys (dict_update e d) = dict_keys e := by
  induction d generalizing e with
  | nil => rfl
  | cons p t ih =>
    rw [dict_update_cons]
    have hp : p.1 ∈ dict_keys e := h p.1 (by rw [dict_keys_cons]; exact List.mem_cons_self _ _)
    rw [ih, keys_insert_mem p.2 hp]
    intro k hk
    rw [keys_insert_mem p.2 hp]
    exact h k (by rw [dict_keys_cons]; exact List.mem_cons_of_mem _ hk)

theorem nodup_keys_update {e : Errors} (d : Errors)
    (h : (dict_keys e).Nodup) : (dict_keys (dict_update e d)).Nodup := by
  induction d generalizing e with
  | nil => exact h
  | cons p t ih =>
    rw [dict_update_cons]
    exact ih (nodup_keys_insert p.1 p.2 h)

theorem dict_ext {a b : Errors} (ha : (dict_keys a).Nodup) (hb : (dict_keys b).Nodup)
    (hk : dict_keys a = dict_keys b) (hl : ∀ k, dict_lookup a k = dict_lookup b k) :
    a = b := by
  induction a generalizing b with
  | nil =>
    cases b with
    | nil => rfl
    | cons q u => exact absurd hk.symm (by simp [dict_keys])
  | cons p t ih =>
    cases b with
    | nil => exact absurd hk (by simp [dict_keys])
    | cons q u =>
      rw [dict_keys_cons, dict_keys_cons] at hk
      injection hk with hk1 hk2
      have hv : p.2 = q.2 := by
        have := hl p.1
        rw [dict_lookup, dict_lookup, if_pos rfl, if_pos hk1.symm] at this
        exact Option.some.inj this
      rw [dict_keys_cons, List.nodup_cons] at ha hb
      have htu : t = u := by
        apply ih ha.2 hb.2 hk2
        intro k
        by_cases hpk : p.1 = k
        · have h1 : dict_lookup t k = none := by
            rw [dict_lookup_eq_none_iff, ← hpk]; exact ha.1
          have h2 : dict_lookup u k = none := by
            rw [dict_lookup_eq_none_iff, ← hpk, hk1]; exact hb.1
          rw [h1, h2]
        · have := hl k
          rw [dict_lookup, dict_lookup, if_neg hpk, if_neg (hk1 ▸ hpk)] at this
          exact this
      have hpq : p = q := Prod.ext hk1 hv
      rw [htu, hpq]

theorem insert_insert_self {e : Errors} (k v : String) (he : (dict_keys e).Nodup) :
    dict_insert (dict_insert e k v) k v = dict_insert e k v := by
  apply dict_ext (nodup_keys_insert _ _ (nodup_keys_insert _ _ he)) (nodup_keys_insert _ _ he)
  · exact keys_insert_mem v (mem_keys_insert_self e k v)
  · intro k'
    by_cases hk : k' = k
    · subst hk
      rw [lookup_insert_self, lookup_insert_self]
    · rw [lookup_insert_ne _ _ hk]

theorem update_update_self {e d : Errors} (he : (dict_keys e).Nodup)
    (hd : (dict_keys d).Nodup) :
    dict_update (dict_update e d) d = dict_update e d := by
  apply dict_ext (nodup_keys_update _ (nodup_keys_update _ he)) (nodup_keys_update _ he)
  · exact keys_update_subset (fun k hk => mem_keys_update_right hk e)
  · intro k
    cases hdk : dict_lookup d k with
    | none => rw [lookup_update_of_none hdk]
    | some v =>
      rw [lookup_update_of_some hd hdk (dict_update e d), lookup_update_of_some hd hdk e]

theorem update_update_pair_self {e d₁ d₂ : Errors} (he : (dict_keys e).Nodup)
    (hd₁ : (dict_keys d₁).Nodup) (hd₂ : (dict_keys d₂).Nodup) :
    dict_update (dict_update (dict_update (dict_update e d₁) d₂) d₁) d₂ =
      dict_update (dict_update e d₁) d₂ := by
  have hA : (dict_keys (dict_update (dict_update e d₁) d₂)).Nodup :=
    nodup_keys_update _ (nodup_keys_update _ he)
  apply dict_ext (nodup_keys_update _ (nodup_keys_update _ hA)) hA
  · have h1 : ∀ k ∈ dict_keys d₁, k ∈ dict_keys (dict_update (dict_update e d₁) d₂) :=
      fun k hk => mem_keys_update_left (mem_keys_update_right hk e) d₂
    have h2 : ∀ k ∈ dict_keys d₂, k ∈ dict_keys (dict_update (dict_update e d₁) d₂) :=
      fun k hk => mem_keys_update_right hk _
    have hstep : dict_keys (dict_update (dict_update (dict_update e d₁) d₂) d₁)
        = dict_keys (dict_update (dict_update e d₁) d₂) := keys_update_subset h1
    have h3 : ∀ k ∈ dict_keys d₂,
        k ∈ dict_keys (dict_update (dict_update (dict_update e d₁) d₂) d₁) :=
      fun k hk => mem_keys_update_left (h2 k hk) d₁
    rw [keys_update_subset h3, hstep]
  · intro k
    cases h2 : dict_lookup d₂ k with
    | some v =>
      rw [lookup_update_of_some hd₂ h2 (dict_update (dict_update (dict_update e d₁) d₂) d₁),
          lookup_update_of_some hd₂ h2 (dict_update e d₁)]
    | none =>
      rw [lookup_update_of_none h2 (dict_update (dict_update (dict_update e d₁) d₂) d₁),
          lookup_update_of_none h2 (dict_update e d₁)]
      cases h1 : dict_lookup d₁ k with
      | some v =>
        rw [lookup_update_of_some hd₁ h1 (dict_update (dict_update e d₁) d₂),
            lookup_update_of_some hd₁ h1 e]
      | none =>
        rw [lookup_update_of_none h1 (dict_update (dict_update e d₁) d₂),
            lookup_update_of_none h2 (dict_update e d₁)]

/-! ## Evaluation lemmas -/

theorem eval_fst (s : Spec) (c : Int) : (is_satisfied_by s c).1 = satisfies s c := by
  induction s with
  | leaf n d i p e => rfl
  | sand e l r ihl ihr =>
    rw [satisfies, ← ihl, ← ihr]
    cases hl : is_satisfied_by l c with
    | mk bl l₁ =>
      cases bl
      · simp [is_satisfied_by, hl]
      · cases hr : is_satisfied_by r c with
        | mk br r₁ =>
          cases br
          · simp [is_satisfied_by, hl, hr]
          · simp [is_satisfied_by, hl, hr]
  | sor e l r ihl ihr =>
    rw [satisfies, ← ihl, ← ihr]
    cases hl : is_satisfied_by l c with
    | mk bl l₁ =>
      cases bl
      · cases hr : is_satisfied_by r c with
        | mk br r₁ =>
          cases br
          · simp [is_satisfied_by, hl, hr]
          · simp [is_satisfied_by, hl, hr]
      · simp [is_satisfied_by, hl]
  | snot e t iht =>
    rw [satisfies, ← iht]
    cases ht : is_satisfied_by t c with
    | mk bt t₁ =>
      cases bt
      · simp [is_satisfied_by, ht]
      · simp [is_satisfied_by, ht]

theorem strip_eval (s : Spec) (c : Int) : strip (is_satisfied_by s c).2 = strip s := by
  induction s with
  | leaf n d i p e => rfl
  | sand e l r ihl ihr =>
    cases hl : is_satisfied_by l c with
    | mk bl l₁ =>
      have ihl' : strip l₁ = strip l := by rw [← ihl, hl]
      cases bl
      · simp [is_satisfied_by, hl, strip, ihl']
      · cases hr : is_satisfied_by r c with
        | mk br r₁ =>
          have ihr' : strip r₁ = strip r := by rw [← ihr, hr]
          cases br
          · simp [is_satisfied_by, hl, hr, strip, ihl', ihr']
          · simp [is_satisfied_by, hl, hr, strip, ihl', ihr']
  | sor e l r ihl ihr =>
    cases hl : is_satisfied_by l c with
    | mk bl l₁ =>
      have ihl' : strip l₁ = strip l := by rw [← ihl, hl]
      cases bl
      · cases hr : is_satisfied_by r c with
        | mk br r₁ =>
          have ihr' : strip r₁ = strip r := by rw [← ihr, hr]
          cases br
          · simp [is_satisfied_by, hl, hr, strip, ihl', ihr']
          · simp [is_satisfied_by, hl, hr, strip, ihl', ihr']
      · simp [is_satisfied_by, hl, strip, ihl']
  | snot e t iht =>
    cases ht : is_satisfied_by t c with
    | mk bt t₁ =>
      have iht' : strip t₁ = strip t := by rw [← iht, ht]
      cases bt
      · simp [is_satisfied_by, ht, strip, iht']
      · simp [is_satisfied_by, ht, strip, iht']

theorem satisfies_strip (s : Spec) (c : Int) : satisfies (strip s) c = satisfies s c := by
  induction s with
  | leaf n d i p e => rfl
  | sand e l r ihl ihr => rw [strip, satisfies, satisfies, ihl, ihr]
  | sor e l r ihl ihr => rw [strip, satisfies, satisfies, ihl, ihr]
  | snot e t iht => rw [strip, satisfies, satisfies, iht]

theorem eval_fst_strip (s : Spec) (c : Int) :
    (is_satisfied_by (is_satisfied_by s c).2 c).1 = (is_satisfied_by s c).1 := by
  rw [eval_fst, eval_fst, ← satisfies_strip (is_satisfied_by s c).2 c, strip_eval,
    satisfies_strip]

theorem descr_strip (s : Spec) : (strip s).descr = s.descr := by
  induction s with
  | leaf n d i p e => rfl
  | sand e l r ihl ihr => rfl
  | sor e l r ihl ihr => rfl
  | snot e t iht => rw [strip, Spec.descr, Spec.descr, iht]

theorem descr_eval (s : Spec) (c : Int) : ((is_satisfied_by s c).2).descr = s.descr := by
  rw [← descr_strip (is_satisfied_by s c).2, strip_eval, descr_strip]

theorem err_nodup_root {s : Spec} (h : err_nodup s) : (dict_keys s.errors).Nodup := by
  cases s with
  | leaf n d i p e => exact h
  | sand e l r => exact h.1
  | sor e l r => exact h.1
  | snot e t => exact h.1

theorem err_nodup_eval (s : Spec) (c : Int) (h : err_nodup s) :
    err_nodup (is_satisfied_by s c).2 := by
  induction s with
  | leaf n d i p e => exact h
  | sand e l r ihl ihr =>
    obtain ⟨he, hel, her⟩ := h
    cases hl : is_satisfied_by l c with
    | mk bl l₁ =>
      have hnl : err_nodup l₁ := by have := ihl hel; rwa [hl] at this
      cases bl
      · simp only [is_satisfied_by, hl]
        exact ⟨nodup_keys_update _ he, hnl, her⟩
      · cases hr : is_satisfied_by r c with
        | mk br r₁ =>
          have hnr : err_nodup r₁ := by have := ihr her; rwa [hr] at this
          cases br
          · simp only [is_satisfied_by, hl, hr]
            exact ⟨nodup_keys_update _ he, hnl, hnr⟩
          · simp only [is_satisfied_by, hl, hr]
            exact ⟨he, hnl, hnr⟩
  | sor e l r ihl ihr =>
    obtain ⟨he, hel, her⟩ := h
    cases hl : is_satisfied_by l c with
    | mk bl l₁ =>
      have hnl : err_nodup l₁ := by have := ihl hel; rwa [hl] at this
      cases bl
      · cases hr : is_satisfied_by r c with
        | mk br r₁ =>
          have hnr : err_nodup r₁ := by have := ihr her; rwa [hr] at this
          cases br
          · simp only [is_satisfied_by, hl, hr]
            exact ⟨nodup_keys_update _ (nodup_keys_update _ he), hnl, hnr⟩
          · simp only [is_satisfied_by, hl, hr]
            exact ⟨he, hnl, hnr⟩
      · simp only [is_satisfied_by, hl]
        exact ⟨he, hnl, her⟩
  | snot e t iht =>
    obtain ⟨he, het⟩ := h
    cases ht : is_satisfied_by t c with
    | mk bt t₁ =>
      have hnt : err_nodup t₁ := by have := iht het; rwa [ht] at this
      cases bt
      · simp only [is_satisfied_by, ht]
        exact ⟨he, hnt⟩
      · simp only [is_satisfied_by, ht]
        exact ⟨nodup_keys_insert _ _ he, hnt⟩

/-- Re-evaluating the same candidate is idempotent on the whole tree state:
the result and every error dictionary come out unchanged. -/
theorem eval_idem (s : Spec) (c : Int) (h : err_nodup s) :
    is_satisfied_by (is_satisfied_by s c).2 c = is_satisfied_by s c := by
  induction s with
  | leaf n d i p e => rfl
  | sand e l r ihl ihr =>
    obtain ⟨he, hel, her⟩ := h
    cases hl : is_satisfied_by l c with
    | mk bl l₁ =>
      have hl₁ : is_satisfied_by l₁ c = (bl, l₁) := by
        have := ihl hel; rwa [hl] at this
      have hnl : err_nodup l₁ := by have := err_nodup_eval l c hel; rwa [hl] at this
      cases bl
      · have hS : is_satisfied_by (Spec.sand e l r) c
            = (false, .sand (dict_update e l₁.errors) l₁ r) := by
          simp [is_satisfied_by, hl]
        rw [hS]
        have hT : is_satisfied_by (Spec.sand (dict_update e l₁.errors) l₁ r) c
            = (false, .sand (dict_update (dict_update e l₁.errors) l₁.errors) l₁ r) := by
          simp [is_satisfied_by, hl₁]
        rw [hT, update_update_self he (err_nodup_root hnl)]
      · cases hr : is_satisfied_by r c with
        | mk br r₁ =>
          have hr₁ : is_satisfied_by r₁ c = (br, r₁) := by
            have := ihr her; rwa [hr] at this
          have hnr : err_nodup r₁ := by have := err_nodup_eval r c her; rwa [hr] at this
          cases br
          · have hS : is_satisfied_by (Spec.sand e l r) c
                = (false, .sand (dict_update e r₁.errors) l₁ r₁) := by
              simp [is_satisfied_by, hl, hr]
            rw [hS]
            have hT : is_satisfied_by (Spec.sand (dict_update e r₁.errors) l₁ r₁) c
                = (false, .sand (dict_update (dict_update e r₁.errors) r₁.errors) l₁ r₁) := by
              simp [is_satisfied_by, hl₁, hr₁]
            rw [hT, update_update_self he (err_nodup_root hnr)]
          · have hS : is_satisfied_by (Spec.sand e l r) c = (true, .sand e l₁ r₁) := by
              simp [is_satisfied_by, hl, hr]
            rw [hS]
            simp [is_satisfied_by, hl₁, hr₁]
  | sor e l r ihl ihr =>
    obtain ⟨he, hel, her⟩ := h
    cases hl : is_satisfied_by l c with
    | mk bl l₁ =>
      have hl₁ : is_satisfied_by l₁ c = (bl, l₁) := by
        have := ihl hel; rwa [hl] at this
      have hnl : err_nodup l₁ := by have := err_nodup_eval l c hel; rwa [hl] at this
      cases bl
      · cases hr : is_satisfied_by r c with
        | mk br r₁ =>
          have hr₁ : is_satisfied_by r₁ c = (br, r₁) := by
            have := ihr her; rwa [hr] at this
          have hnr : err_nodup r₁ := by have := err_nodup_eval r c her; rwa [hr] at this
          cases br
          · have hS : is_satisfied_by (Spec.sor e l r) c
                = (false, .sor (dict_update (dict_update e l₁.errors) r₁.errors) l₁ r₁) := by
              simp [is_satisfied_by, hl, hr]
            rw [hS]
            have hT : is_satisfied_by
                (Spec.sor (dict_update (dict_update e l₁.errors) r₁.errors) l₁ r₁) c
                = (false, .sor (dict_update (dict_update
                    (dict_update (dict_update e l₁.errors) r₁.errors) l₁.errors) r₁.errors)
                    l₁ r₁) := by
              simp [is_satisfied_by, hl₁, hr₁]
            rw [hT, update_update_pair_self he (err_nodup_root hnl) (err_nodup_root hnr)]
          · have hS : is_satisfied_by (Spec.sor e l r) c = (true, .sor e l₁ r₁) := by
              simp [is_satisfied_by, hl, hr]
            rw [hS]
            simp [is_satisfied_by, hl₁, hr₁]
      · have hS : is_satisfied_by (Spec.sor e l r) c = (true, .sor e l₁ r) := by
          simp [is_satisfied_by, hl]
        rw [hS]
        simp [is_satisfied_by, hl₁]
  | snot e t iht =>
    obtain ⟨he, het⟩ := h
    cases ht : is_satisfied_by t c with
    | mk bt t₁ =>
      have ht₁ : is_satisfied_by t₁ c = (bt, t₁) := by
        have := iht het; rwa [ht] at this
      cases bt
      · have hS : is_satisfied_by (Spec.snot e t) c = (true, .snot e t₁) := by
          simp [is_satisfied_by, ht]
        rw [hS]
        simp [is_satisfied_by, ht₁]
      · have hdescr : t₁.descr = t.descr := by
          have := descr_eval t c; rwa [ht] at this
        have hS : is_satisfied_by (Spec.snot e t) c
            = (false, .snot (dict_insert e "_NotSpecification"
                ("Expected to NOT satisfy: " ++ t.descr ++ " (got: " ++ toString c ++ ")")) t₁) := by
          simp [is_satisfied_by, ht]
        rw [hS]
        have hT : is_satisfied_by (Spec.snot (dict_insert e "_NotSpecification"
              ("Expected to NOT satisfy: " ++ t.descr ++ " (got: " ++ toString c ++ ")")) t₁) c
            = (false, .snot (dict_insert (dict_insert e "_NotSpecification"
                ("Expected to NOT satisfy: " ++ t.descr ++ " (got: " ++ toString c ++ ")"))
                "_NotSpecification"
                ("Expected to NOT satisfy: " ++ t₁.descr ++ " (got: " ++ toString c ++ ")")) t₁) := by
          simp [is_satisfied_by, ht₁]
        rw [hT, hdescr, insert_insert_self _ _ he]

theorem eval_true_errs (s : Spec) (c : Int) (h : (is_satisfied_by s c).1 = true) :
    ((is_satisfied_by s c).2).last_errors = s.last_errors := by
  cases s with
  | leaf n d i p e => rfl
  | sand e l r =>
    cases hl : is_satisfied_by l c with
    | mk bl l₁ =>
      cases bl
      · simp [is_satisfied_by, hl] at h
      · cases hr : is_satisfied_by r c with
        | mk br r₁ =>
          cases br
          · simp [is_satisfied_by, hl, hr] at h
          · simp [is_satisfied_by, hl, hr, Spec.last_errors]
  | sor e l r =>
    cases hl : is_satisfied_by l c with
    | mk bl l₁ =>
      cases bl
      · cases hr : is_satisfied_by r c with
        | mk br r₁ =>
          cases br
          · simp [is_satisfied_by, hl, hr] at h
          · simp [is_satisfied_by, hl, hr, Spec.last_errors]
      · simp [is_satisfied_by, hl, Spec.last_errors]
  | snot e t =>
    cases ht : is_satisfied_by t c with
    | mk bt t₁ =>
      cases bt
      · simp [is_satisfied_by, ht, Spec.last_errors]
      · simp [is_satisfied_by, ht] at h

theorem satisfies_eval (s : Spec) (c c' : Int) :
    satisfies (is_satisfied_by s c).2 c' = satisfies s c' := by
  rw [← satisfies_strip, strip_eval, satisfies_strip]

theorem eval_iter_fst (s : Spec) (c : Int) (n : Nat) :
    (is_satisfied_by (eval_iter c n s) c).1 = (is_satisfied_by (strip s) c).1 := by
  induction n with
  | zero =>
    rw [eval_iter, eval_fst, eval_fst, satisfies_strip]
  | succ n ih =>
    rw [eval_iter, eval_fst, satisfies_eval, ← eval_fst, ih]

/-! ## Claims -/

/-- C1: refuted on the code.  The claim says a `false` result always leaves a
non-empty error report, but `GreaterThan(5).is_satisfied_by(3)` returns
`False` with `errors()` still empty: the reset-and-log decorator is never
attached (`SpecificationMeta.__new__` tests for a method named `log`, while
the class defines `_log`), so a failing leaf records nothing. -/
theorem C1_leaf_fails_with_empty_errors :
    (is_satisfied_by (GreaterThan 5) 3).1 = false ∧
    ((is_satisfied_by (GreaterThan 5) 3).2).errors = [] := by
  decide

/-- C2: refuted on the code.  `last_errors` is never cleared: after
`(~GreaterThan(10)).is_satisfied_by(12)` records a failure, a later
satisfied call `is_satisfied_by(5)` returns `True` but the old entry
survives in the report. -/
theorem C2_errors_not_reset :
    (is_satisfied_by notGT10 12).1 = false ∧
    ((is_satisfied_by notGT10 12).2).errors =
      [("_NotSpecification", "Expected to NOT satisfy: Value greater than 10 (got: 12)")] ∧
    (is_satisfied_by ((is_satisfied_by notGT10 12).2) 5).1 = true ∧
    ((is_satisfied_by ((is_satisfied_by notGT10 12).2) 5).2).errors =
      [("_NotSpecification", "Expected to NOT satisfy: Value greater than 10 (got: 12)")] := by
  decide

/-- C3: refuted on the code.  `(GreaterThan(5) | GreaterThan(10))` at 3
returns `False`, but the report afterwards is empty rather than containing
entries for both children: the undecorated leaves never populate their own
reports, so the OR merges two empty dictionaries. -/
theorem C3_or_both_fail_empty_errors :
    (is_satisfied_by ((GreaterThan 5).orS (GreaterThan 10)) 3).1 = false ∧
    ((is_satisfied_by ((GreaterThan 5).orS (GreaterThan 10)) 3).2).errors = [] := by
  decide

/-- C4: refuted on the code.  Short-circuiting itself holds (at candidate 3
the paths run are only the root and the left child), but the composite's
report is not "only the left child's errors": after an earlier failing
evaluation at 12 the right child's stale entry is still in the report, while
the left child's own report is empty. -/
theorem C4_short_circuit_stale_errors :
    (is_satisfied_by between_5_and_10 12).1 = false ∧
    (is_satisfied_by between_after_12 3).1 = false ∧
    eval_paths between_after_12 3 = [[], [false]] ∧
    ((is_satisfied_by between_after_12 3).2).errors =
      [("_NotSpecification", "Expected to NOT satisfy: Value greater than 10 (got: 12)")] ∧
    (((is_satisfied_by between_after_12 3).2).left_child).errors = [] := by
  decide

/-- C5: partially refuted on the code.  The boolean inversion holds and the
failure message mentions the child's description, but "when the child fails,
NOT succeeds and its error report is empty" is false: after a failing call
at 7 the entry survives a later succeeding call at 3. -/
theorem C5_not_stale_error_after_success :
    (is_satisfied_by notGT5 3).1 = true ∧
    ((is_satisfied_by notGT5 3).2).errors = [] ∧
    (is_satisfied_by notGT5 7).1 = false ∧
    ((is_satisfied_by notGT5 7).2).errors =
      [("_NotSpecification", "Expected to NOT satisfy: Value greater than 5 (got: 7)")] ∧
    (is_satisfied_by ((is_satisfied_by notGT5 7).2) 3).1 = true ∧
    ((is_satisfied_by ((is_satisfied_by notGT5 7).2) 3).2).errors ≠ [] := by
  decide

/-- C6 counterexample: "returns normally with no side effect" fails as
stated.  `~GreaterThan(5) | GreaterThan(5)` is satisfied by 7, and
`validate_or_raise` indeed returns normally, but the evaluation mutates the
tree: the left child records a failure entry. -/
theorem C6_pass_mutates_state :
    (validate_or_raise or_not5_5 7).1 = none ∧
    (validate_or_raise or_not5_5 7).2 ≠ or_not5_5 := by
  constructor
  · decide
  · intro hEq
    have h2 := congrArg (fun t => (Spec.left_child t).errors) hEq
    revert h2
    decide

/-- C6 (amended): `validate_or_raise(c)` raises exactly when
`is_satisfied_by(c)` is false, and the raised message equals
`explain_failure`'s output for that candidate; when the candidate satisfies
the specification it returns normally and the specification's own error
report is unchanged (child nodes' reports may still be updated by the
evaluation itself). -/
theorem C6_validate_or_raise_spec (s : Spec) (c : Int) (h : err_nodup s) :
    ((validate_or_raise s c).1 = none ↔ (is_satisfied_by s c).1 = true) ∧
    ((is_satisfied_by s c).1 = false →
      (validate_or_raise s c).1 = some (explain_failure s c).1) ∧
    ((is_satisfied_by s c).1 = true →
      ((validate_or_raise s c).2).last_errors = s.last_errors) := by
  cases hS : is_satisfied_by s c with
  | mk b s₁ =>
    cases b
    · have hidem : is_satisfied_by s₁ c = (false, s₁) := by
        have := eval_idem s c h
        rw [hS] at this
        exact this
      have hv : validate_or_raise s c = (some (format_errors s₁.last_errors), s₁) := by
        rw [validate_or_raise, hS]
        simp [explain_failure, hidem]
      have hx : explain_failure s c = (format_errors s₁.last_errors, s₁) := by
        rw [explain_failure, hS]
      refine ⟨?_, ?_, ?_⟩
      · rw [hv]
        simp
      · intro _
        rw [hv, hx]
      · intro hfalse
        exact absurd hfalse (by simp)
    · have hv : validate_or_raise s c = (none, s₁) := by
        rw [validate_or_raise, hS]
      refine ⟨?_, ?_, ?_⟩
      · rw [hv]
        simp
      · intro hfalse
        exact absurd hfalse (by simp)
      · intro _
        rw [hv]
        have := eval_true_errs s c (by rw [hS])
        rw [hS] at this
        exact this

/-- Witness for C6: the amended theorem applied to the concrete spec
`GreaterThan(5) & ~GreaterThan(10)` and failing candidate 3. -/
theorem C6_validate_or_raise_spec_witness :
    err_nodup between_5_and_10 ∧
    (validate_or_raise between_5_and_10 3).1 = some (explain_failure between_5_and_10 3).1 := by
  have hn : err_nodup between_5_and_10 :=
    ⟨List.nodup_nil, List.nodup_nil, List.nodup_nil, List.nodup_nil⟩
  exact ⟨hn, (C6_validate_or_raise_spec between_5_and_10 3 hn).2.1 (by decide)⟩

/-- C7: confirmed.  `all_of`/`any_of` reject the empty sequence with the
source's `ValueError` messages, and on a non-empty sequence they fold the
specifications left to right with AND / OR, each combinator allocating a
fresh composite (shown both in general and on a three-element list, whose
tree is left-associated in the given order). -/
theorem C7_all_of_any_of_fold :
    all_of [] = Except.error "all_of requires at least one specification" ∧
    any_of [] = Except.error "any_of requires at least one specification" ∧
    (∀ s rest, all_of (s :: rest) = .ok (rest.foldl Spec.andS s)) ∧
    (∀ s rest, any_of (s :: rest) = .ok (rest.foldl Spec.orS s)) ∧
    (∀ a b c : Spec, all_of [a, b, c] = .ok (.sand [] (.sand [] a b) c)) ∧
    (∀ a b c : Spec, any_of [a, b, c] = .ok (.sor [] (.sor [] a b) c)) :=
  ⟨rfl, rfl, fun _ _ => rfl, fun _ _ => rfl, fun _ _ _ => rfl, fun _ _ _ => rfl⟩

/-- C8: partially refuted on the code.  `explain_failure` does return `""`
for a satisfied candidate, and a never-evaluated node has an empty report;
but the report is NOT empty after a satisfied evaluation: once
`GreaterThan(5) & ~GreaterThan(10)` has failed at 12, a later satisfied call
at 7 returns `True` and `explain_failure(7) = ""` while `errors()` still
holds the stale entry. -/
theorem C8_satisfied_evaluation_keeps_stale_errors :
    between_5_and_10.errors = [] ∧
    (is_satisfied_by between_after_12 7).1 = true ∧
    (explain_failure between_after_12 7).1 = "" ∧
    ((is_satisfied_by between_after_12 7).2).errors =
      [("_NotSpecification", "Expected to NOT satisfy: Value greater than 10 (got: 12)")] := by
  decide

/-- C9: confirmed.  The boolean result of `is_satisfied_by` is a pure
function of the candidate and the tree's configuration: however many times
the same tree has already been evaluated on the candidate (`eval_iter`), the
result equals both the configuration-only `satisfies` and the result on the
error-free tree `strip s` — no hidden error state influences the outcome. -/
theorem C9_result_deterministic (s : Spec) (c : Int) (n : Nat) :
    (is_satisfied_by (eval_iter c n s) c).1 = satisfies s c ∧
    (is_satisfied_by (eval_iter c n s) c).1 = (is_satisfied_by (strip s) c).1 := by
  constructor
  · rw [eval_iter_fst, eval_fst, satisfies_strip]
  · exact eval_iter_fst s c n

/-- C10: confirmed.  On a one-element sequence both aggregation helpers
return the given specification itself, with no composite wrapper. -/
theorem C10_singleton_identity (s : Spec) :
    all_of [s] = Except.ok s ∧ any_of [s] = Except.ok s :=
  ⟨rfl, rfl⟩
